import Mathlib

/-
Shallow embedding of the heuristic content-extraction layer of
src/leadscraper/src/services/website_crawler.py (class WebsiteCrawlerService).
Text is modelled as List Char.  The handful of regular expressions used by the
extractor are embedded as executable backtracking matchers written in
continuation-passing style: greedy repetition tries the longest extent first
and falls back, alternation tries branches in declared order, and search tries
start positions left to right, exactly as Python's re.search / re.findall do.
-/

set_option maxRecDepth 32768

namespace WebsiteCrawler

/-- Python regex class \s restricted to the ASCII whitespace characters. -/
def isWsChar (c : Char) : Bool :=
  c = ' ' || c = '\t' || c = '\n' || c = '\r' || c = '\x0b' || c = '\x0c'

/-- Character class [:\s] used between an anchor word and its payload. -/
def gapChar (c : Char) : Bool := c = ':' || isWsChar c

/-- Character class for the regex dot (everything except a newline). -/
def dotChar (c : Char) : Bool := c != '\n'

/-- Character class [^.\n] used by the project patterns. -/
def projChar (c : Char) : Bool := c != '.' && c != '\n'

/-- Character class \d restricted to ASCII digits. -/
def digitChar (c : Char) : Bool := '0' ≤ c && c ≤ '9'

/-- Character class [A-Z]. -/
def upperAZ (c : Char) : Bool := 'A' ≤ c && c ≤ 'Z'

/-- Character class [a-z]. -/
def lowerAZ (c : Char) : Bool := 'a' ≤ c && c ≤ 'z'

/-- Match a literal, case sensitively; returns the remaining text. -/
def matchLit : List Char → List Char → Option (List Char)
  | [], s => some s
  | _ :: _, [] => none
  | a :: as, b :: bs => if a = b then matchLit as bs else none

/-- Match a literal case-insensitively (re.IGNORECASE on ASCII). -/
def matchLitCI : List Char → List Char → Option (List Char)
  | [], s => some s
  | _ :: _, [] => none
  | a :: as, b :: bs => if a.toLower = b.toLower then matchLitCI as bs else none

/-- Greedy Kleene star over a character class, with backtracking into the
continuation k: the longest extent is tried first. -/
def greedyStar {α : Type} (p : Char → Bool) : List Char → (List Char → Option α) → Option α
  | [], k => k []
  | c :: rest, k =>
    if p c then
      match greedyStar p rest k with
      | some a => some a
      | none => k (c :: rest)
    else k (c :: rest)

/-- Greedy plus over a character class (at least one character). -/
def greedyPlus {α : Type} (p : Char → Bool) (s : List Char) (k : List Char → Option α) : Option α :=
  match s with
  | [] => none
  | c :: rest => if p c then greedyStar p rest k else none

/-- Greedy counted repetition p\x7blo,hi\x7d with backtracking into k. -/
def repRange {α : Type} (p : Char → Bool) : Nat → Nat → List Char → (List Char → Option α) → Option α
  | lo, 0, s, k => if lo = 0 then k s else none
  | lo, _ + 1, [], k => if lo = 0 then k [] else none
  | lo, hi + 1, c :: rest, k =>
    if p c then
      match repRange p (lo - 1) hi rest k with
      | some a => some a
      | none => if lo = 0 then k (c :: rest) else none
    else if lo = 0 then k (c :: rest) else none

/-- Characters consumed between the start t of a group and the leftover rem. -/
def grp (t rem : List Char) : List Char := t.take (t.length - rem.length)

/-- First-success over a list of alternatives, in declared order. -/
def firstSome {α β : Type} (f : α → Option β) : List α → Option β
  | [] => none
  | a :: as =>
    match f a with
    | some b => some b
    | none => firstSome f as

/-- Leftmost search: try the matcher at every start position, left to right,
like re.search. -/
def searchCapture {α : Type} (m : List Char → Option α) : List Char → Option α
  | [] => m []
  | c :: rest =>
    match m (c :: rest) with
    | some a => some a
    | none => searchCapture m rest

/-- All non-overlapping matches, scanning left to right and resuming at each
match end, like re.findall.  The fuel argument bounds the recursion; one unit
is spent per position or match, so length + 1 units always suffice. -/
def findallAux {α : Type} (m : List Char → Option (α × List Char)) : Nat → List Char → List α
  | 0, _ => []
  | _ + 1, [] =>
    match m [] with
    | some (g, _) => [g]
    | none => []
  | fuel + 1, c :: rest =>
    match m (c :: rest) with
    | some (g, r) => g :: findallAux m fuel r
    | none => findallAux m fuel rest

/-- re.findall for a matcher that reports the text remaining after the match. -/
def findall {α : Type} (m : List Char → Option (α × List Char)) (s : List Char) : List α :=
  findallAux m (s.length + 1) s

/-- Python str.strip restricted to the ASCII whitespace class. -/
def stripWs (s : List Char) : List Char :=
  ((s.dropWhile isWsChar).reverse.dropWhile isWsChar).reverse

/-- Worker for collapseWs; the flag records whether the previous character was
whitespace (already emitted as a single space). -/
def collapseAux : Bool → List Char → List Char
  | _, [] => []
  | inWs, c :: rest =>
    if isWsChar c then
      if inWs then collapseAux true rest else ' ' :: collapseAux true rest
    else c :: collapseAux false rest

/-- re.sub of the pattern of one or more whitespace characters by a single
space: every maximal whitespace run becomes one space. -/
def collapseWs (s : List Char) : List Char := collapseAux false s

/-- Shared clean-up of an extracted fragment: strip, collapse whitespace and
truncate to 500 characters, as done in _extract_description. -/
def cleanClip (s : List Char) : List Char :=
  if 500 < (collapseWs (stripWs s)).length then (collapseWs (stripWs s)).take 500
  else collapseWs (stripWs s)

/-- Worker for splitPara, accumulating the current chunk in reverse. -/
def splitParaAux : List Char → List Char → List (List Char)
  | acc, [] => [acc.reverse]
  | acc, '\n' :: '\n' :: rest => acc.reverse :: splitParaAux [] rest
  | acc, c :: rest => splitParaAux (c :: acc) rest

/-- Python str.split on the two-character separator of a blank line. -/
def splitPara (content : List Char) : List (List Char) := splitParaAux [] content

/-- True when the paragraph starts with the heading marker. -/
def headHash : List Char → Bool
  | '#' :: _ => true
  | _ => false

/-- One description pattern: the anchor matched case-insensitively, then the
gap [:\s]*, then a captured run of 50 to 300 non-newline characters. -/
def descPatAt (anchor : List Char) (s : List Char) : Option (List Char) :=
  match matchLitCI anchor s with
  | none => none
  | some r =>
    greedyStar gapChar r (fun t =>
      repRange dotChar 50 300 t (fun rem => some (grp t rem)))

/-- Anchors of the three description patterns, in priority order. -/
def descAnchors : List (List Char) :=
  [ "over ons".data, "wie zijn wij".data, "welkom".data]

/-- The loop over description patterns: first match wins. -/
def tryDescAnchors : List (List Char) → List Char → Option (List Char)
  | [], _ => none
  | a :: as, content =>
    match searchCapture (descPatAt a) content with
    | some g => some (cleanClip g)
    | none => tryDescAnchors as content

/-- Fallback loop of _extract_description: first paragraph longer than 100
characters that does not start with the heading marker. -/
def firstPara : List (List Char) → Option (List Char)
  | [] => none
  | p :: ps =>
    if 100 < p.length ∧ headHash p = false then some (cleanClip p) else firstPara ps

/-- Embedding of WebsiteCrawlerService._extract_description. -/
def extract_description (content : List Char) : Option (List Char) :=
  match tryDescAnchors descAnchors content with
  | some d => some d
  | none => firstPara (splitPara content)

/-- The fixed service vocabulary of _extract_services, in declared order. -/
def service_keywords : List (List Char) :=
  [ "tuinaanleg".data, "tuinonderhoud".data, "snoeien".data, "grasmaaien".data,
    "bestrating".data, "vijveraanleg".data, "beplanting".data, "schutting".data,
    "terras".data, "gazon".data, "haag".data, "heggen".data, "bomen".data,
    "struiken".data, "groenonderhoud".data, "tuinontwerp".data,
    "tuinrenovatie".data, "sierbestrating".data, "drainage".data,
    "beregening".data]

/-- Substring occurrence test (Python keyword in content). -/
def isPfx : List Char → List Char → Bool
  | [], _ => true
  | _ :: _, [] => false
  | a :: as, b :: bs => a = b && isPfx as bs

/-- occursIn n h holds when n occurs as a contiguous substring of h. -/
def occursIn (n : List Char) : List Char → Bool
  | [] => isPfx n []
  | c :: t => isPfx n (c :: t) || occursIn n t

/-- Embedding of WebsiteCrawlerService._extract_services: append, in
vocabulary order, every keyword occurring in the (lower-cased) content, then
keep the first 10. -/
def extract_services (content : List Char) : List (List Char) :=
  (service_keywords.foldl
    (fun services k => if occursIn k content then services ++ [k] else services) []).take 10

/-- The (trigger, label) pairs of _extract_specializations, in order. -/
def spec_keywords : List (List Char × List Char) :=
  [ ( "moderne tuinen".data, "moderne tuinen".data),
    ( "klassieke tuinen".data, "klassieke tuinen".data),
    ( "kleine tuinen".data, "kleine tuinen".data),
    ( "grote tuinen".data, "grote tuinen".data),
    ( "duurzaam".data, "duurzaam".data),
    ( "ecologisch".data, "ecologisch".data),
    ( "onderhoudsvri".data, "onderhoudsvrij".data),
    ( "kindvriendel".data, "kindvriendelijk".data),
    ( "zakelijk".data, "zakelijke tuinen".data),
    ( "particulier".data, "particuliere tuinen".data),
    ( "natuurlijk".data, "natuurlijke tuinen".data)]

/-- Embedding of WebsiteCrawlerService._extract_specializations. -/
def extract_specializations (content : List Char) : List (List Char) :=
  (spec_keywords.foldl
    (fun sp kl => if occursIn kl.1 content then sp ++ [kl.2] else sp) []).take 5

/-- One project pattern: the anchor matched case-insensitively, the mandatory
gap [:\s]+, then a captured run of 20 to 100 characters other than a period or
newline; also reports where the match ends, for non-overlapping findall. -/
def projMatchAt (anchor : List Char) (s : List Char) : Option (List Char × List Char) :=
  match matchLitCI anchor s with
  | none => none
  | some r =>
    greedyPlus gapChar r (fun t =>
      repRange projChar 20 100 t (fun rem => some (grp t rem, rem)))

/-- Anchors of the three project patterns, in declared order. -/
def projAnchors : List (List Char) :=
  [ "project".data, "realisatie".data, "uitgevoerd".data]

/-- The body of the inner loop of _extract_projects: collapse whitespace in
the candidate and append it unless it is empty or already collected. -/
def dedupStep (projects : List (List Char)) (m : List Char) : List (List Char) :=
  if collapseWs (stripWs m) ≠ [] ∧ collapseWs (stripWs m) ∉ projects
  then projects ++ [collapseWs (stripWs m)] else projects

/-- The body of the outer loop of _extract_projects: take the first three
findall matches of one pattern and fold them through dedupStep. -/
def projScanOne (content : List Char) (projects : List (List Char)) (anchor : List Char) :
    List (List Char) :=
  ((findall (projMatchAt anchor) content).take 3).foldl dedupStep projects

/-- Embedding of WebsiteCrawlerService._extract_projects. -/
def extract_projects (content : List Char) : List (List Char) :=
  (projAnchors.foldl (projScanOne content) []).take 5

/-- One capitalized word [A-Z][a-z]+ with the maximal lower-case run; no
shorter run can ever succeed in the owner patterns because the character that
would be given back is a lower-case letter while every continuation there
requires a space or nothing. -/
def capWordAt (s : List Char) : Option (List Char × List Char) :=
  match s with
  | [] => none
  | c :: rest =>
    if upperAZ c then
      let run := rest.takeWhile lowerAZ
      if run.isEmpty then none else some (c :: run, rest.drop run.length)
    else none

/-- The five ways the optional Dutch particle group of the owner-name pattern
can match, in the order the regex engine tries them: the outer optional group
is greedy, and inside it the alternation tries its branches in order before
the inner optional group matches empty. -/
def particleAlts : List (List Char) :=
  [ "van de ".data, "van den ".data, "van der ".data, "van ".data, []]

/-- The capture group of the owner-name patterns: a capitalized first name, a
space, an optional particle, and a capitalized surname. -/
def nameAt (s : List Char) : Option (List Char × List Char) :=
  match capWordAt s with
  | none => none
  | some (w1, r1) =>
    match r1 with
    | ' ' :: r2 =>
      firstSome (fun part =>
        match matchLit part r2 with
        | none => none
        | some r3 =>
          match capWordAt r3 with
          | none => none
          | some (w2, r4) => some (w1 ++ ' ' :: (part ++ w2), r4)) particleAlts
    | _ => none

/-- An owner pattern anchored on a literal word, followed by the mandatory gap
[:\s]+ and the captured name; matched case-sensitively like the source. -/
def anchoredNameAt (anchor : List Char) (s : List Char) : Option (List Char) :=
  match matchLit anchor s with
  | none => none
  | some r =>
    greedyPlus gapChar r (fun t =>
      match nameAt t with
      | some (nm, _) => some nm
      | none => none)

/-- The third owner pattern: the word door or bij, a space, then the name. -/
def doorBijAt (s : List Char) : Option (List Char) :=
  match firstSome (fun w => matchLit w s) [ "door ".data, "bij ".data] with
  | none => none
  | some r =>
    match nameAt r with
    | some (nm, _) => some nm
    | none => none

/-- Embedding of WebsiteCrawlerService._extract_owner_name: the three owner
patterns are tried in priority order, each searched case-sensitively. -/
def extract_owner_name (content : List Char) : Option (List Char) :=
  match searchCapture (anchoredNameAt ( "eigenaar".data)) content with
  | some nm => some nm
  | none =>
    match searchCapture (anchoredNameAt ( "contact".data)) content with
    | some nm => some nm
    | none => searchCapture doorBijAt content

/-- Python int applied to the captured group: succeeds exactly on non-empty
all-digit strings (which is all a \d+ capture can ever be). -/
def parseNatDigits (ds : List Char) : Option Nat :=
  if ds = [] then none
  else if ds.all digitChar then
    some (ds.foldl (fun n c => 10 * n + (c.toNat - '0'.toNat)) 0)
  else none

/-- First employee pattern: captured digits, optional whitespace, then one of
the four staff words. -/
def emp1At (s : List Char) : Option (List Char) :=
  greedyPlus digitChar s (fun r1 =>
    greedyStar isWsChar r1 (fun r2 =>
      match firstSome (fun w => matchLit w r2)
          [ "medewerkers".data, "werknemers".data, "vakmensen".data, "collega".data] with
      | some _ => some (grp s r1)
      | none => none))

/-- Second employee pattern: the word team, optional whitespace, van or met,
optional whitespace, then the captured digits. -/
def emp2At (s : List Char) : Option (List Char) :=
  match matchLit ( "team".data) s with
  | none => none
  | some r1 =>
    greedyStar isWsChar r1 (fun r2 =>
      match firstSome (fun w => matchLit w r2) [ "van".data, "met".data] with
      | none => none
      | some r3 =>
        greedyStar isWsChar r3 (fun r4 =>
          greedyPlus digitChar r4 (fun r5 => some (grp r4 r5))))

/-- Third employee pattern: captured digits, optional whitespace, the word
man, optional whitespace, then sterk or team. -/
def emp3At (s : List Char) : Option (List Char) :=
  greedyPlus digitChar s (fun r1 =>
    greedyStar isWsChar r1 (fun r2 =>
      match matchLit ( "man".data) r2 with
      | none => none
      | some r3 =>
        greedyStar isWsChar r3 (fun r4 =>
          match firstSome (fun w => matchLit w r4) [ "sterk".data, "team".data] with
          | some _ => some (grp s r1)
          | none => none)))

/-- One step of the numeric loop of _estimate_employees: when the pattern
matched, return the parsed capture; a parse failure is swallowed and the next
alternative is used instead. -/
def empStep (cap : Option (List Char)) (next : Option Nat) : Option Nat :=
  match cap with
  | some ds =>
    match parseNatDigits ds with
    | some n => some n
    | none => next
  | none => next

/-- The categorical indicator tail of _estimate_employees. -/
def empCategorical (content : List Char) : Option Nat :=
  if occursIn ( "eenmanszaak".data) content || occursIn ( "zzp".data) content then some 1
  else if occursIn ( "klein team".data) content then some 3
  else if occursIn ( "groot team".data) content then some 10
  else none

/-- Embedding of WebsiteCrawlerService._estimate_employees. -/
def estimate_employees (content : List Char) : Option Nat :=
  empStep (searchCapture emp1At content)
    (empStep (searchCapture emp2At content)
      (empStep (searchCapture emp3At content)
        (empCategorical content)))

/-- The extraction result bundle.  The source returns a dict read through
dict.get by its callers, so an absent key and a key bound to None coincide;
the record models both as none / the empty list. -/
structure BusinessInfo where
  description : Option (List Char)
  services : List (List Char)
  specializations : List (List Char)
  recent_projects : List (List Char)
  owner_name : Option (List Char)
  employee_estimate : Option Nat
deriving DecidableEq

/-- The all-absent result the entry point returns for empty content. -/
def emptyInfo : BusinessInfo :=
  { description := none, services := [], specializations := [],
    recent_projects := [], owner_name := none, employee_estimate := none }

/-- Python str.lower on ASCII. -/
def lowerStr (s : List Char) : List Char := s.map Char.toLower

/-- A text is free of whitespace runs when no two adjacent characters are both
whitespace. -/
def wsFree (l : List Char) : Prop :=
  l.Chain' (fun a b => isWsChar a = false ∨ isWsChar b = false)

/-- Embedding of WebsiteCrawlerService._extract_business_info: empty content
short-circuits to the all-absent result; otherwise the sub-extractors run on
the raw or lower-cased content exactly as in the source. -/
def extract_business_info (content : List Char) : BusinessInfo :=
  if content = [] then emptyInfo
  else
    { description := extract_description content
      services := extract_services (lowerStr content)
      specializations := extract_specializations (lowerStr content)
      recent_projects := extract_projects content
      owner_name := extract_owner_name content
      employee_estimate := estimate_employees (lowerStr content) }

/-- The append-only keyword loop of the service extractor equals a filter of
the vocabulary in vocabulary order. -/
theorem services_foldl (content : List Char) (ks : List (List Char)) :
    ∀ acc, ks.foldl
        (fun services k => if occursIn k content then services ++ [k] else services) acc
      = acc ++ ks.filter (fun k => occursIn k content) := by
  induction ks with
  | nil => intro acc; simp
  | cons k ks ih =>
    intro acc
    cases hp : occursIn k content <;>
      simp [List.foldl_cons, hp, List.filter_cons, ih]

/-- The append-only pair loop of the specialization extractor equals a filter
of the trigger table followed by projection to the labels. -/
theorem specs_foldl (content : List Char) (ks : List (List Char × List Char)) :
    ∀ acc, ks.foldl
        (fun sp kl => if occursIn kl.1 content then sp ++ [kl.2] else sp) acc
      = acc ++ (ks.filter (fun kl => occursIn kl.1 content)).map (fun kl => kl.2) := by
  induction ks with
  | nil => intro acc; simp
  | cons k ks ih =>
    intro acc
    cases hp : occursIn k.1 content <;>
      simp [List.foldl_cons, hp, List.filter_cons, ih]

/-- Folding candidates through the deduplicating append preserves Nodup. -/
theorem dedup_foldl_nodup (ms : List (List Char)) :
    ∀ acc : List (List Char), acc.Nodup → (ms.foldl dedupStep acc).Nodup := by
  induction ms with
  | nil => intro acc h; simpa using h
  | cons m ms ih =>
    intro acc h
    simp only [List.foldl_cons]
    apply ih
    unfold dedupStep
    split
    · next hcond =>
      simp only [List.nodup_append, List.nodup_cons, List.nodup_nil]
      refine ⟨h, by simp, ?_⟩
      intro x hx hx1
      simp only [List.mem_singleton] at hx1
      subst hx1
      exact hcond.2 hx
    · exact h

/-- The outer pattern loop of the project extractor preserves Nodup. -/
theorem projScan_nodup (content : List Char) (pats : List (List Char)) :
    ∀ acc : List (List Char), acc.Nodup →
      (pats.foldl (projScanOne content) acc).Nodup := by
  induction pats with
  | nil => intro acc h; simpa using h
  | cons p ps ih =>
    intro acc h
    simp only [List.foldl_cons]
    exact ih _ (dedup_foldl_nodup _ _ h)

/-- Whitespace collapsing yields a run-free text; when started in the
in-whitespace state the result additionally begins with a non-whitespace
character. -/
theorem collapseAux_wsFree (s : List Char) :
    (wsFree (collapseAux true s)
      ∧ ∀ b ∈ (collapseAux true s).head?, isWsChar b = false)
    ∧ wsFree (collapseAux false s) := by
  induction s with
  | nil =>
    refine ⟨⟨List.chain'_nil, ?_⟩, List.chain'_nil⟩
    simp [collapseAux]
  | cons c rest ih =>
    obtain ⟨⟨h1, h2⟩, h3⟩ := ih
    cases hw : isWsChar c with
    | true =>
      refine ⟨⟨?_, ?_⟩, ?_⟩
      · simpa [collapseAux, hw] using h1
      · simpa [collapseAux, hw] using h2
      · have e : collapseAux false (c :: rest) = ' ' :: collapseAux true rest := by
          simp [collapseAux, hw]
        rw [e, wsFree, List.chain'_cons']
        exact ⟨fun b hb => Or.inr (h2 b hb), h1⟩
    | false =>
      have e1 : collapseAux true (c :: rest) = c :: collapseAux false rest := by
        simp [collapseAux, hw]
      have e2 : collapseAux false (c :: rest) = c :: collapseAux false rest := by
        simp [collapseAux, hw]
      refine ⟨⟨?_, ?_⟩, ?_⟩
      · rw [e1, wsFree, List.chain'_cons']
        exact ⟨fun b _ => Or.inl hw, h3⟩
      · rw [e1]
        intro b hb
        simp only [List.head?_cons, Option.mem_def, Option.some.injEq] at hb
        subst hb
        exact hw
      · rw [e2, wsFree, List.chain'_cons']
        exact ⟨fun b _ => Or.inl hw, h3⟩

/-- Every cleaned fragment is free of whitespace runs. -/
theorem cleanClip_wsFree (s : List Char) : wsFree (cleanClip s) := by
  have h : wsFree (collapseWs (stripWs s)) := (collapseAux_wsFree (stripWs s)).2
  unfold cleanClip
  split
  · exact h.take 500
  · exact h

/-- Every cleaned fragment has at most 500 characters. -/
theorem cleanClip_length (s : List Char) : (cleanClip s).length ≤ 500 := by
  unfold cleanClip
  split
  · next h => simp [List.length_take]
  · next h => omega

/-- Every present result of the description pattern loop is a cleaned
fragment. -/
theorem tryDescAnchors_shape :
    ∀ (anchors : List (List Char)) (content d : List Char),
      tryDescAnchors anchors content = some d → ∃ g, d = cleanClip g := by
  intro anchors
  induction anchors with
  | nil => intro content d h; simp [tryDescAnchors] at h
  | cons a anchors ih =>
    intro content d h
    revert h
    unfold tryDescAnchors
    cases hs : searchCapture (descPatAt a) content with
    | some g =>
      intro h
      exact ⟨g, (Option.some.inj h).symm⟩
    | none =>
      intro h
      exact ih content d h

/-- Every present result of the paragraph fallback is a cleaned fragment. -/
theorem firstPara_shape :
    ∀ (ps : List (List Char)) (d : List Char),
      firstPara ps = some d → ∃ g, d = cleanClip g := by
  intro ps
  induction ps with
  | nil => intro d h; simp [firstPara] at h
  | cons p ps ih =>
    intro d h
    revert h
    unfold firstPara
    split
    · intro h
      exact ⟨p, (Option.some.inj h).symm⟩
    · intro h
      exact ih d h

/-- Every present description is a cleaned fragment. -/
theorem extract_description_shape (content d : List Char)
    (h : extract_description content = some d) : ∃ g, d = cleanClip g := by
  revert h
  unfold extract_description
  cases ht : tryDescAnchors descAnchors content with
  | some x =>
    intro h
    obtain ⟨g, hg⟩ := tryDescAnchors_shape descAnchors content x ht
    exact ⟨g, by rw [← Option.some.inj h, hg]⟩
  | none =>
    intro h
    exact firstPara_shape _ d h

/-- C1 counterexample: the owner-name extractor searches its anchors
case-sensitively, so the input consisting exactly of the substring named by
the claim, with the capitalized word Eigenaar, does not yield the name the
claim requires; it yields no owner name at all. -/
theorem C1_counterexample :
    ¬ extract_owner_name ( "Eigenaar: Jan van der Berg".data)
        = some ( "Jan van der Berg".data) := by decide

/-- C1 amended: owner-name anchors are matched case-sensitively; the input
with the lower-case anchor eigenaar followed by Jan van der Berg yields that
name through the first pattern, while the capitalized variant Eigenaar yields
no owner name. -/
theorem C1_owner_case_sensitive :
    extract_owner_name ( "eigenaar: Jan van der Berg".data)
        = some ( "Jan van der Berg".data)
    ∧ extract_owner_name ( "Eigenaar: Jan van der Berg".data) = none := by
  exact ⟨by decide, by decide⟩

/-- C2: for empty input the extraction entry point returns the result with
every field absent and every list empty, and each sub-extractor likewise
degrades to absent or empty on empty input. -/
theorem C2_empty_input :
    extract_business_info [] =
      { description := none, services := [], specializations := [],
        recent_projects := [], owner_name := none, employee_estimate := none }
    ∧ extract_description [] = none
    ∧ extract_services [] = []
    ∧ extract_specializations [] = []
    ∧ extract_projects [] = []
    ∧ extract_owner_name [] = none
    ∧ estimate_employees [] = none := by
  refine ⟨by decide, by decide, by decide, by decide, by decide, by decide, by decide⟩

/-- C3: the employee estimator tries the three numeric patterns in order and
returns the first captured integer; only when none of them matches anywhere
does it fall back to the categorical substrings in priority order, whose
if-chain also yields absent when no signal is present.  Concretely, a text
with team van 5 medewerkers yields 5, a text with only a zzp marker yields 1
through the categorical fallback, and when two numeric patterns both match,
the earlier pattern wins. -/
theorem C3_employees (s : List Char)
    (h1 : searchCapture emp1At s = none)
    (h2 : searchCapture emp2At s = none)
    (h3 : searchCapture emp3At s = none) :
    estimate_employees s =
      (if occursIn ( "eenmanszaak".data) s || occursIn ( "zzp".data) s then some 1
       else if occursIn ( "klein team".data) s then some 3
       else if occursIn ( "groot team".data) s then some 10
       else none)
    ∧ estimate_employees ( "wij zijn een team van 5 medewerkers".data) = some 5
    ∧ estimate_employees ( "wij zijn een zzp-bedrijf".data) = some 1
    ∧ estimate_employees ( "7 medewerkers in ons team van 3".data) = some 7 := by
  refine ⟨?_, by decide, by decide, by decide⟩
  simp [estimate_employees, h1, h2, h3, empStep, empCategorical]

/-- C3 witness: the hypotheses of the employee-priority theorem hold for the
concrete zzp text, whose numeric searches all fail. -/
theorem C3_witness :
    estimate_employees ( "wij zijn een zzp-bedrijf".data) =
      (if occursIn ( "eenmanszaak".data) ( "wij zijn een zzp-bedrijf".data)
          || occursIn ( "zzp".data) ( "wij zijn een zzp-bedrijf".data) then some 1
       else if occursIn ( "klein team".data) ( "wij zijn een zzp-bedrijf".data) then some 3
       else if occursIn ( "groot team".data) ( "wij zijn een zzp-bedrijf".data) then some 10
       else none)
    ∧ estimate_employees ( "wij zijn een team van 5 medewerkers".data) = some 5
    ∧ estimate_employees ( "wij zijn een zzp-bedrijf".data) = some 1
    ∧ estimate_employees ( "7 medewerkers in ons team van 3".data) = some 7 :=
  C3_employees ( "wij zijn een zzp-bedrijf".data) (by decide) (by decide) (by decide)

/-- C4: for every input the services field is exactly the vocabulary-order
filter of the fixed 20-keyword vocabulary by substring occurrence in the
lower-cased input, capped at the first 10 matches; hence it has no duplicates
and contains only vocabulary entries. -/
theorem C4_services_exact (content : List Char) :
    (extract_business_info content).services
        = (service_keywords.filter (fun k => occursIn k (lowerStr content))).take 10
    ∧ (extract_business_info content).services.Nodup
    ∧ ∀ x ∈ (extract_business_info content).services, x ∈ service_keywords := by
  have heq : (extract_business_info content).services
      = (service_keywords.filter (fun k => occursIn k (lowerStr content))).take 10 := by
    by_cases h0 : content = []
    · subst h0
      simp only [extract_business_info, if_pos rfl]
      decide
    · simp only [extract_business_info, if_neg h0]
      show extract_services (lowerStr content) = _
      unfold extract_services
      rw [services_foldl]
      simp
  have hnodup : (extract_business_info content).services.Nodup := by
    rw [heq]
    have hv : service_keywords.Nodup := by decide
    exact (hv.filter _).sublist (List.take_sublist _ _)
  refine ⟨heq, hnodup, ?_⟩
  intro x hx
  rw [heq] at hx
  have hx' := List.take_subset _ _ hx
  exact (List.mem_filter.mp hx').1

/-- C5: the services list never exceeds 10 entries and the specializations
and recent-projects lists never exceed 5 entries each. -/
theorem C5_caps (content : List Char) :
    (extract_business_info content).services.length ≤ 10
    ∧ (extract_business_info content).specializations.length ≤ 5
    ∧ (extract_business_info content).recent_projects.length ≤ 5 := by
  by_cases h0 : content = []
  · subst h0
    refine ⟨by decide, by decide, by decide⟩
  · simp only [extract_business_info, if_neg h0]
    refine ⟨?_, ?_, ?_⟩
    · show (extract_services (lowerStr content)).length ≤ 10
      unfold extract_services
      simp [List.length_take]
    · show (extract_specializations (lowerStr content)).length ≤ 5
      unfold extract_specializations
      simp [List.length_take]
    · show (extract_projects content).length ≤ 5
      unfold extract_projects
      simp [List.length_take]

/-- C6: whenever the description is present, it has at most 500 characters
and no two consecutive whitespace characters (hence no whitespace run of
length two or more). -/
theorem C6_description_clean (content d : List Char)
    (h : (extract_business_info content).description = some d) :
    d.length ≤ 500 ∧ wsFree d := by
  have hd : extract_description content = some d := by
    by_cases h0 : content = []
    · rw [h0] at h
      simp [extract_business_info, emptyInfo] at h
    · simpa [extract_business_info, h0] using h
  obtain ⟨g, rfl⟩ := extract_description_shape content d hd
  exact ⟨cleanClip_length g, cleanClip_wsFree g⟩

/-- C6 witness: a 101-character paragraph yields a present description, which
the theorem then bounds. -/
theorem C6_witness :
    (List.replicate 101 'a').length ≤ 500 ∧ wsFree (List.replicate 101 'a') :=
  C6_description_clean (List.replicate 101 'a') (List.replicate 101 'a') (by decide)

/-- C7: on the over-ons sentence the description extractor returns the
trimmed sentence after the anchor, and the service extractor finds both
tuinonderhoud and bestrating. -/
theorem C7_over_ons :
    (extract_business_info
        ( "Over ons: Wij zijn een hoveniersbedrijf gespecialiseerd in tuinonderhoud en bestrating.".data)).description
      = some
        ( "Wij zijn een hoveniersbedrijf gespecialiseerd in tuinonderhoud en bestrating.".data)
    ∧ "tuinonderhoud".data ∈
        (extract_business_info
          ( "Over ons: Wij zijn een hoveniersbedrijf gespecialiseerd in tuinonderhoud en bestrating.".data)).services
    ∧ "bestrating".data ∈
        (extract_business_info
          ( "Over ons: Wij zijn een hoveniersbedrijf gespecialiseerd in tuinonderhoud en bestrating.".data)).services := by
  refine ⟨by decide, by decide, by decide⟩

/-- C8: the recent-projects list never contains two equal strings, and the
text repeating the same project sentence three times yields exactly one
deduplicated entry. -/
theorem C8_projects_dedup (content : List Char) :
    (extract_business_info content).recent_projects.Nodup
    ∧ (extract_business_info
        ( "Project: Tuinrenovatie in Den Haag voltooid in 2023. Project: Tuinrenovatie in Den Haag voltooid in 2023. Project: Tuinrenovatie in Den Haag voltooid in 2023.".data)).recent_projects
      = [ "Tuinrenovatie in Den Haag voltooid in 2023".data] := by
  constructor
  · by_cases h0 : content = []
    · subst h0
      decide
    · simp only [extract_business_info, if_neg h0]
      show (extract_projects content).Nodup
      unfold extract_projects
      exact (projScan_nodup content projAnchors [] (by simp)).sublist
        (List.take_sublist _ _)
  · decide

/-- C9: extraction is a total function that degrades gracefully: when no
pattern of any sub-extractor matches and no keyword occurs, the entry point
returns the all-absent result, and a numeric parse failure on a captured
employee-count group is swallowed, falling through to the next alternative. -/
theorem C9_graceful_degradation (s ds : List Char) (next : Option Nat)
    (hdesc : tryDescAnchors descAnchors s = none)
    (hpara : firstPara (splitPara s) = none)
    (hsvc : ∀ k ∈ service_keywords, occursIn k (lowerStr s) = false)
    (hspec : ∀ kl ∈ spec_keywords, occursIn kl.1 (lowerStr s) = false)
    (hp1 : findall (projMatchAt ( "project".data)) s = [])
    (hp2 : findall (projMatchAt ( "realisatie".data)) s = [])
    (hp3 : findall (projMatchAt ( "uitgevoerd".data)) s = [])
    (ho1 : searchCapture (anchoredNameAt ( "eigenaar".data)) s = none)
    (ho2 : searchCapture (anchoredNameAt ( "contact".data)) s = none)
    (ho3 : searchCapture doorBijAt s = none)
    (he1 : searchCapture emp1At (lowerStr s) = none)
    (he2 : searchCapture emp2At (lowerStr s) = none)
    (he3 : searchCapture emp3At (lowerStr s) = none)
    (hc1 : occursIn ( "eenmanszaak".data) (lowerStr s) = false)
    (hc2 : occursIn ( "zzp".data) (lowerStr s) = false)
    (hc3 : occursIn ( "klein team".data) (lowerStr s) = false)
    (hc4 : occursIn ( "groot team".data) (lowerStr s) = false)
    (hparse : parseNatDigits ds = none) :
    extract_business_info s = emptyInfo ∧ empStep (some ds) next = next := by
  constructor
  · by_cases h0 : s = []
    · subst h0
      decide
    · have hdesc' : extract_description s = none := by
        unfold extract_description
        rw [hdesc, hpara]
      have hsvc' : extract_services (lowerStr s) = [] := by
        unfold extract_services
        rw [services_foldl]
        have hf : service_keywords.filter (fun k => occursIn k (lowerStr s)) = [] :=
          List.filter_eq_nil_iff.mpr (fun k hk => by simp [hsvc k hk])
        simp [hf]
      have hspec' : extract_specializations (lowerStr s) = [] := by
        unfold extract_specializations
        rw [specs_foldl]
        have hf : spec_keywords.filter (fun kl => occursIn kl.1 (lowerStr s)) = [] :=
          List.filter_eq_nil_iff.mpr (fun kl hk => by simp [hspec kl hk])
        simp [hf]
      have hproj' : extract_projects s = [] := by
        unfold extract_projects
        simp [projAnchors, projScanOne, hp1, hp2, hp3]
      have hown' : extract_owner_name s = none := by
        unfold extract_owner_name
        rw [ho1, ho2, ho3]
      have hemp' : estimate_employees (lowerStr s) = none := by
        unfold estimate_employees
        rw [he1, he2, he3]
        simp [empStep, empCategorical, hc1, hc2, hc3, hc4]
      simp [extract_business_info, h0, hdesc', hsvc', hspec', hproj', hown', hemp',
        emptyInfo]
  · simp [empStep, hparse]

/-- C9 witness: the one-letter text carries no signal for any sub-extractor,
and a non-numeric capture is swallowed in favour of the next alternative. -/
theorem C9_witness :
    extract_business_info ( "q".data) = emptyInfo
    ∧ empStep (some ( "x".data)) (some 42) = some 42 :=
  C9_graceful_degradation ( "q".data) ( "x".data) (some 42)
    (by decide) (by decide) (by decide) (by decide) (by decide) (by decide)
    (by decide) (by decide) (by decide) (by decide) (by decide) (by decide)
    (by decide) (by decide) (by decide) (by decide) (by decide) (by decide)

/-- C10: a non-empty input, here a single paragraph of 101 whitespace
characters with no blank-line separator, makes the paragraph fallback of the
description extractor return the empty string as a present description
instead of reporting the description absent. -/
theorem C10_empty_present_description :
    List.replicate 101 ' ' ≠ ([] : List Char)
    ∧ extract_description (List.replicate 101 ' ') = some [] := by
  refine ⟨by decide, by decide⟩

end WebsiteCrawler
